import Mathlib

/-!
Verification development for the cenackle feed-service fan-out engine.

Shallow embedding of:
* `FeedService.DistributePost` (services/feed-service/internal/core/services/feed_service.go)
* `RedisFeedRepo.AddToTimelines`, `RedisFeedRepo.GetTimeline`
  (services/feed-service/internal/adapters/secondary/repository/redis_repo.go)
* `GraphClient.GetFollowers` (internal/adapters/secondary/clients, gRPC streaming client)
* `Server.GetTimeline` (services/feed-service/cmd/main.go, gRPC handler)

Modelling conventions:
* Go strings are Lean `String`s; `strings.Split(s, ":")` is embedded as a
  recursive single-character splitter over `s.data`.
* `time.Time` values appear in the source only via `Unix()` seconds, so
  timestamps are embedded as `Int` (the write path stores
  `float64(item.CreatedAt.Unix())` and the read path recovers
  `time.Unix(int64(score), 0)`; for second-resolution values below 2^53 the
  float round-trip is exact, so an `Int` score is faithful).
* A Redis sorted set is an association list `member ↦ score` with unique
  members; `ZADD` is an upsert, `ZREVRANGE key start stop` follows the Redis
  index semantics (negative indexes count from the end, out-of-range indexes
  are clamped) over the descending (score, then member) ordering.
* The whole Redis keyspace is a function from key to sorted set.
* TTL refresh (`pipe.Expire`) is not modelled: no claim depends on it.
* A failed `AddToTimelines` batch is modelled as applying no writes; the
  service-level code only observes the batch call's error and continues.
-/

/-- Go `strings.Split(s, sep)` for a single-character separator, over the
character list of the string: split at every occurrence, keeping empty
pieces, yielding at least one piece. -/
def splitCh (sep : Char) : List Char → List (List Char)
  | [] => [[]]
  | x :: xs =>
    if x = sep then [] :: splitCh sep xs
    else
      match splitCh sep xs with
      | [] => [[x]]
      | y :: ys => (x :: y) :: ys

/-- `strings.Split(s, ":")` on Go strings (single-character separator `:`). -/
def goSplitColon (s : String) : List String :=
  (splitCh ':' s.data).map String.mk

/-- `domain.ContentType` is a Go string type. -/
abbrev ContentType := String

/-- `domain.FeedItem`: the content reference distributed and stored.
`createdAt` is the unix-seconds value of the Go `time.Time` field. -/
structure FeedItem where
  postID : String
  authorID : String
  type : ContentType
  createdAt : Int
deriving DecidableEq, Repr

/-- `domain.FeedRequest`: read-query criteria. -/
structure FeedRequest where
  UserID : String
  Limit : Int
  Offset : Int
  Types : List ContentType
deriving DecidableEq, Repr

/-- A Redis sorted set: association list of (member, score). -/
abbrev ZSet := List (String × Int)

/-- The Redis keyspace. -/
abbrev Store := String → ZSet

/-- Member encoding from `AddToTimelines`:
`fmt.Sprintf("%s:%s:%s", item.Type, item.AuthorID, item.PostID)`. -/
def encodeMember (item : FeedItem) : String :=
  item.type ++ ":" ++ item.authorID ++ ":" ++ item.postID

/-- Redis `ZADD key score member`: upsert — update the score of an existing
member, otherwise insert the member (placement in the association list is
irrelevant: retrieval always goes through the canonical `sortRev` order). -/
def zadd : ZSet → String → Int → ZSet
  | [], m, s => [(m, s)]
  | p :: ps, m, s => if p.1 == m then (m, s) :: ps else p :: zadd ps m s

/-- Redis `ZSCORE key member`. -/
def zscore (zs : ZSet) (m : String) : Option Int :=
  (zs.find? (fun p => p.1 == m)).map (·.2)

/-- Number of entries of a sorted set carrying a given member key. -/
def countKey (zs : ZSet) (m : String) : Nat :=
  zs.countP (fun p => p.1 == m)

/-- Pointwise update of one key of the keyspace. -/
def storeUpdate (st : Store) (k : String) (f : ZSet → ZSet) : Store :=
  fun k' => if k' = k then f (st k') else st k'

/-- `RedisFeedRepo.AddToTimelines`: for each user id, `ZADD` the item's
encoded member with score `CreatedAt` into `timeline:{uid}` (the pipeline
executes the queued commands in order; TTL refresh not modelled). -/
def AddToTimelines (st : Store) : List String → FeedItem → Store
  | [], _ => st
  | uid :: rest, item =>
    AddToTimelines
      (storeUpdate st ("timeline:" ++ uid)
        (fun zs => zadd zs (encodeMember item) item.createdAt))
      rest item

/-- The descending retrieval order used by `ZREVRANGE`: higher score first,
ties broken by reverse lexicographic member order. -/
def revRel (a b : String × Int) : Prop :=
  b.2 < a.2 ∨ (a.2 = b.2 ∧ b.1 ≤ a.1)

instance : DecidableRel revRel := fun a b => by
  unfold revRel; exact inferInstance

instance : IsTotal (String × Int) revRel :=
  ⟨by
    intro a b
    rcases lt_trichotomy a.2 b.2 with h | h | h
    · exact Or.inr (Or.inl h)
    · rcases le_total a.1 b.1 with h1 | h1
      · exact Or.inr (Or.inr ⟨h.symm, h1⟩)
      · exact Or.inl (Or.inr ⟨h, h1⟩)
    · exact Or.inl (Or.inl h)⟩

instance : IsTrans (String × Int) revRel :=
  ⟨by
    intro a b c hab hbc
    rcases hab with h1 | ⟨e1, l1⟩
    · rcases hbc with h2 | ⟨e2, l2⟩
      · exact Or.inl (h2.trans h1)
      · exact Or.inl (e2 ▸ h1)
    · rcases hbc with h2 | ⟨e2, l2⟩
      · exact Or.inl (e1 ▸ h2)
      · exact Or.inr ⟨e1.trans e2, l2.trans l1⟩⟩

/-- The full descending ordering of a sorted set, as materialized by
`ZREVRANGE` before index selection. -/
def sortRev (zs : ZSet) : ZSet :=
  List.insertionSort revRel zs

/-- Redis `ZREVRANGE key start stop WITHSCORES` index semantics
(t_zset.c `zrangeGenericCommand`): negative indexes count from the end,
`start` is clamped below at 0, `stop` above at `n-1`; `start > stop` or
`start ≥ n` yields the empty list. -/
def zrevrange (zs : ZSet) (start stop : Int) : List (String × Int) :=
  let l := sortRev zs
  let n : Int := l.length
  let s0 := if start < 0 then start + n else start
  let e0 := if stop < 0 then stop + n else stop
  let s1 := max s0 0
  if s1 > e0 ∨ s1 ≥ n then []
  else
    let e1 := min e0 (n - 1)
    (l.drop s1.toNat).take (e1 - s1 + 1).toNat

/-- The member parsing of `RedisFeedRepo.GetTimeline`: split on `:`;
3 parts = `{type}:{author_id}:{content_id}`, 2 parts = legacy
`{type}:{content_id}` with absent author, anything else is skipped. -/
def parseMember (member : String) : Option (ContentType × String × String) :=
  match goSplitColon member with
  | [t, a, p] => some (t, a, p)
  | [t, p] => some (t, "", p)
  | _ => none

/-- One iteration of the result loop of `GetTimeline`: decode the member,
then apply the application-level type filter (`hasFilter && !filterMap[t]`
skips the entry). -/
def entryToItem (types : List ContentType) (z : String × Int) : Option FeedItem :=
  match parseMember z.1 with
  | none => none
  | some (t, a, p) =>
    if types ≠ [] ∧ t ∉ types then none
    else some { postID := p, authorID := a, type := t, createdAt := z.2 }

/-- The decode-and-filter loop of `GetTimeline` over the fetched range. -/
def processResults (results : List (String × Int)) (types : List ContentType) :
    List FeedItem :=
  results.filterMap (entryToItem types)

/-- `RedisFeedRepo.GetTimeline`: `ZREVRANGE timeline:{uid} Offset
(Offset+Limit-1)`, then decode and filter.  The source's only error return
is the store read itself (propagated before any parsing); the parsing loop
is total, so the embedding returns the item list directly. -/
def GetTimeline (st : Store) (req : FeedRequest) : List FeedItem :=
  let zs := st ("timeline:" ++ req.UserID)
  processResults (zrevrange zs req.Offset (req.Offset + req.Limit - 1)) req.Types

/-- `GraphClient.GetFollowers`: consume the gRPC stream, appending every
received batch to `allFollowers`; `io.EOF` ends the loop and returns the
accumulated list, any other stream error returns that error (discarding the
partial accumulation).  A stream is modelled as the batches delivered before
its termination plus an optional terminal error (`none` = clean EOF). -/
def getFollowers (batches : List (List String)) (terminal : Option String) :
    Except String (List String) :=
  match terminal with
  | some e => Except.error e
  | none => Except.ok batches.flatten

/-- `services.BatchSize`. -/
def BatchSize : Nat := 1000

/-- The chunking loop of `DistributePost`
(`for i := 0; i < len(followers); i += BatchSize`), fuelled for structural
recursion: chunk `i` is `followers[i : min(i+C, n)]`. -/
def chunksAux (C : Nat) : Nat → List String → List (List String)
  | _, [] => []
  | 0, _ :: _ => []
  | Nat.succ fuel, x :: xs =>
    ((x :: xs).take C) :: chunksAux C fuel ((x :: xs).drop C)

/-- The batches the chunking loop produces for a follower list. -/
def chunks (C : Nat) (l : List String) : List (List String) :=
  chunksAux C l.length l

/-- The dispatch loop of `DistributePost`: batch `i` is handed to
`AddToTimelines`; on error the batch is logged and skipped (`continue`),
modelled by the failure oracle `fails` deciding which batch calls fail (a
failed batch applies no writes). -/
def applyChunks (item : FeedItem) (fails : Nat → Bool) :
    Nat → List (List String) → Store → Store
  | _, [], st => st
  | i, c :: cs, st =>
    applyChunks item fails (i + 1) cs
      (if fails i then st else AddToTimelines st c item)

/-- `FeedService.DistributePost`: fetch the followers (aborting on
enumeration error), succeed immediately on an empty follower set, otherwise
chunk into `BatchSize` batches and dispatch each batch, skipping failed
batches.  Returns (result, final keyspace, the list of batches passed to
`AddToTimelines`). -/
def DistributePost (followersRes : Except String (List String))
    (fails : Nat → Bool) (st : Store) (item : FeedItem) :
    Except String Unit × Store × List (List String) :=
  match followersRes with
  | Except.error e => (Except.error e, st, [])
  | Except.ok followers =>
    if followers.length = 0 then (Except.ok (), st, [])
    else
      let cs := chunks BatchSize followers
      (Except.ok (), applyChunks item fails 0 cs st, cs)

/-- The sublist of batches actually applied by the dispatch loop (those
whose call did not fail), starting from batch index `i`. -/
def appliedChunks (fails : Nat → Bool) : Nat → List (List String) → List (List String)
  | _, [] => []
  | i, c :: cs =>
    if fails i then appliedChunks fails (i + 1) cs
    else c :: appliedChunks fails (i + 1) cs

/-- `Server.GetTimeline` (gRPC handler in cmd/main.go): reject an empty
user id, default `limit ≤ 0` to 20, clamp `offset < 0` to 0, then build the
domain request — the source constructs `domain.FeedRequest` from `UserId`,
`Limit` and `Offset` only, so `Types` is the zero value `[]` and the
inbound query's `types` argument is never read.  The proto mapping copies
the four item fields unchanged, so the handler is modelled as returning the
domain items. -/
def serverGetTimeline (st : Store) (userId : String) (limit offset : Int)
    (types : List ContentType) : Except String (List FeedItem) :=
  if userId = "" then Except.error "user_id is required"
  else
    let l := if limit ≤ 0 then 20 else limit
    let o := if offset < 0 then 0 else offset
    Except.ok (GetTimeline st { UserID := userId, Limit := l, Offset := o, Types := [] })

/-! ### Sorted-set upsert lemmas -/

theorem countKey_zadd_self (zs : ZSet) (m : String) (s : Int) :
    countKey (zadd zs m s) m = if countKey zs m = 0 then 1 else countKey zs m := by
  induction zs with
  | nil => simp [zadd, countKey]
  | cons p ps ih =>
    by_cases h : p.1 = m
    · simp [zadd, countKey, List.countP_cons, h]
    · simp only [zadd, beq_eq_false_iff_ne.mpr h, Bool.false_eq_true, if_false, countKey,
        List.countP_cons, beq_iff_eq, h, Nat.add_zero] at *
      exact ih

theorem zscore_zadd_self (zs : ZSet) (m : String) (s : Int) :
    zscore (zadd zs m s) m = some s := by
  induction zs with
  | nil => simp [zadd, zscore, List.find?]
  | cons p ps ih =>
    by_cases h : p.1 = m
    · simp [zadd, zscore, List.find?, h]
    · simpa [zadd, zscore, List.find?, beq_eq_false_iff_ne.mpr h] using ih

theorem countKey_zadd_other (zs : ZSet) (m' m : String) (s : Int) (hne : m' ≠ m) :
    countKey (zadd zs m' s) m = countKey zs m := by
  induction zs with
  | nil => simp [zadd, countKey, hne]
  | cons p ps ih =>
    by_cases h : p.1 = m'
    · simp [zadd, countKey, List.countP_cons, h, hne]
    · simp only [zadd, beq_eq_false_iff_ne.mpr h, Bool.false_eq_true, if_false, countKey,
        List.countP_cons] at *
      omega

theorem zscore_zadd_other (zs : ZSet) (m' m : String) (s : Int) (hne : m' ≠ m) :
    zscore (zadd zs m' s) m = zscore zs m := by
  induction zs with
  | nil => simp [zadd, zscore, List.find?, beq_eq_false_iff_ne.mpr hne]
  | cons p ps ih =>
    by_cases h : p.1 = m'
    · simp [zadd, zscore, List.find?, h, beq_eq_false_iff_ne.mpr hne]
    · by_cases h2 : p.1 = m
      · simp only [zadd, beq_eq_false_iff_ne.mpr h, Bool.false_eq_true, if_false]
        simp [zscore, List.find?, h2]
      · simpa [zadd, zscore, List.find?, beq_eq_false_iff_ne.mpr h,
          beq_eq_false_iff_ne.mpr h2] using ih

/-! ### Keyspace and batch-write lemmas -/

theorem string_append_left_cancel {s a b : String} (h : s ++ a = s ++ b) : a = b := by
  apply String.ext
  have h2 := congrArg String.data h
  simp only [String.data_append] at h2
  exact List.append_cancel_left h2

theorem addTL_untouched (item : FeedItem) (uids : List String) (st : Store) (k : String)
    (h : ∀ u ∈ uids, "timeline:" ++ u ≠ k) :
    AddToTimelines st uids item k = st k := by
  induction uids generalizing st with
  | nil => rfl
  | cons u rest ih =>
    show AddToTimelines (storeUpdate st ("timeline:" ++ u) _) rest item k = st k
    rw [ih _ (fun v hv => h v (List.mem_cons_of_mem u hv))]
    simp [storeUpdate, Ne.symm (h u (List.mem_cons_self u rest))]

theorem addTL_countKey_pos (item : FeedItem) (uids : List String) (st : Store) (k : String)
    (h : countKey (st k) (encodeMember item) ≠ 0) :
    countKey (AddToTimelines st uids item k) (encodeMember item)
      = countKey (st k) (encodeMember item) := by
  induction uids generalizing st with
  | nil => rfl
  | cons u rest ih =>
    show countKey (AddToTimelines (storeUpdate st ("timeline:" ++ u) _) rest item k) _ = _
    have hst' : countKey (storeUpdate st ("timeline:" ++ u)
        (fun zs => zadd zs (encodeMember item) item.createdAt) k) (encodeMember item)
        = countKey (st k) (encodeMember item) := by
      by_cases hk : k = "timeline:" ++ u
      · subst hk
        simp only [storeUpdate, if_true]
        rw [countKey_zadd_self, if_neg h]
      · simp [storeUpdate, hk]
    rw [ih _ (by rw [hst']; exact h), hst']

theorem addTL_countKey_le_one (item : FeedItem) (uids : List String) (st : Store) (k : String)
    (h : countKey (st k) (encodeMember item) ≤ 1) :
    countKey (AddToTimelines st uids item k) (encodeMember item) ≤ 1 := by
  induction uids generalizing st with
  | nil => exact h
  | cons u rest ih =>
    show countKey (AddToTimelines (storeUpdate st ("timeline:" ++ u) _) rest item k) _ ≤ 1
    apply ih
    by_cases hk : k = "timeline:" ++ u
    · subst hk
      simp only [storeUpdate, if_true]
      rw [countKey_zadd_self]
      split
      · exact Nat.le_refl 1
      · exact h
    · simpa [storeUpdate, hk] using h

theorem addTL_countKey_mem (item : FeedItem) (uids : List String) (st : Store) (uid : String)
    (hu : uid ∈ uids)
    (h : countKey (st ("timeline:" ++ uid)) (encodeMember item) ≤ 1) :
    countKey (AddToTimelines st uids item ("timeline:" ++ uid)) (encodeMember item) = 1 := by
  induction uids generalizing st with
  | nil => cases hu
  | cons u rest ih =>
    show countKey (AddToTimelines (storeUpdate st ("timeline:" ++ u) _) rest item _) _ = 1
    by_cases he : u = uid
    · subst he
      have h1 : countKey (storeUpdate st ("timeline:" ++ u)
          (fun zs => zadd zs (encodeMember item) item.createdAt) ("timeline:" ++ u))
          (encodeMember item) = 1 := by
        simp only [storeUpdate, if_true]
        rw [countKey_zadd_self]
        split
        · rfl
        · omega
      rw [addTL_countKey_pos _ _ _ _ (by rw [h1]; exact Nat.one_ne_zero), h1]
    · have hrest : uid ∈ rest := by
        rcases List.mem_cons.mp hu with h' | h'
        · exact absurd h'.symm he
        · exact h'
      apply ih _ hrest
      have hk : ("timeline:" ++ uid) ≠ ("timeline:" ++ u) :=
        fun hc => he (string_append_left_cancel hc).symm
      simpa [storeUpdate, hk] using h

theorem addTL_zscore_keep (item : FeedItem) (uids : List String) (st : Store) (k : String)
    (h : zscore (st k) (encodeMember item) = some item.createdAt) :
    zscore (AddToTimelines st uids item k) (encodeMember item) = some item.createdAt := by
  induction uids generalizing st with
  | nil => exact h
  | cons u rest ih =>
    show zscore (AddToTimelines (storeUpdate st ("timeline:" ++ u) _) rest item k) _ = _
    apply ih
    by_cases hk : k = "timeline:" ++ u
    · simp [storeUpdate, hk, zscore_zadd_self]
    · simpa [storeUpdate, hk] using h

theorem addTL_zscore_mem (item : FeedItem) (uids : List String) (st : Store) (uid : String)
    (hu : uid ∈ uids) :
    zscore (AddToTimelines st uids item ("timeline:" ++ uid)) (encodeMember item)
      = some item.createdAt := by
  induction uids generalizing st with
  | nil => cases hu
  | cons u rest ih =>
    show zscore (AddToTimelines (storeUpdate st ("timeline:" ++ u) _) rest item _) _ = _
    by_cases he : u = uid
    · subst he
      apply addTL_zscore_keep
      simp only [storeUpdate, if_true]
      exact zscore_zadd_self _ _ _
    · have hrest : uid ∈ rest := by
        rcases List.mem_cons.mp hu with h' | h'
        · exact absurd h'.symm he
        · exact h'
      exact ih _ hrest

/-! ### Chunking and dispatch lemmas -/

theorem chunksAux_flatten (C : Nat) (hC : 0 < C) :
    ∀ (fuel : Nat) (l : List String), l.length ≤ fuel →
      (chunksAux C fuel l).flatten = l := by
  intro fuel
  induction fuel with
  | zero =>
    intro l hl
    cases l with
    | nil => rfl
    | cons x xs => simp at hl
  | succ fuel ih =>
    intro l hl
    cases l with
    | nil => rfl
    | cons x xs =>
      simp only [chunksAux, List.flatten_cons]
      rw [ih _ (by simp only [List.length_drop]; simp at hl ⊢; omega)]
      exact List.take_append_drop C (x :: xs)

theorem chunksAux_length (C : Nat) (hC : 0 < C) :
    ∀ (fuel : Nat) (l : List String), l.length ≤ fuel →
      (chunksAux C fuel l).length = (l.length + C - 1) / C := by
  intro fuel
  induction fuel with
  | zero =>
    intro l hl
    cases l with
    | nil =>
      have h0 : (0 + C - 1) / C = 0 := Nat.div_eq_of_lt (by omega)
      simpa [chunksAux] using h0.symm
    | cons x xs => simp at hl
  | succ fuel ih =>
    intro l hl
    cases l with
    | nil =>
      have h0 : (0 + C - 1) / C = 0 := Nat.div_eq_of_lt (by omega)
      simpa [chunksAux] using h0.symm
    | cons x xs =>
      simp only [chunksAux, List.length_cons]
      rw [ih (List.drop C (x :: xs))
        (by rw [List.length_drop]; simp only [List.length_cons] at hl ⊢; omega)]
      simp only [List.length_drop, List.length_cons]
      by_cases hle : xs.length + 1 ≤ C
      · rw [Nat.sub_eq_zero_of_le hle, Nat.zero_add, Nat.div_eq_of_lt (by omega)]
        have h2 : (xs.length + 1 + C - 1) / C = 1 :=
          Nat.div_eq_of_lt_le (by omega) (by omega)
        omega
      · have e1 : xs.length + 1 - C + C - 1 = xs.length := by omega
        have e2 : xs.length + 1 + C - 1 = xs.length + C := by omega
        rw [e1, e2, Nat.add_div_right _ hC]

theorem chunks_flatten (l : List String) : (chunks BatchSize l).flatten = l :=
  chunksAux_flatten BatchSize (by decide) l.length l (Nat.le_refl _)

theorem chunks_length (l : List String) :
    (chunks BatchSize l).length = (l.length + BatchSize - 1) / BatchSize :=
  chunksAux_length BatchSize (by decide) l.length l (Nat.le_refl _)

theorem applyChunks_countKey_pos (item : FeedItem) (fails : Nat → Bool)
    (cs : List (List String)) (k : String) :
    ∀ (i : Nat) (st : Store), countKey (st k) (encodeMember item) ≠ 0 →
      countKey (applyChunks item fails i cs st k) (encodeMember item)
        = countKey (st k) (encodeMember item) := by
  induction cs with
  | nil => intro i st h; rfl
  | cons c cs ih =>
    intro i st h
    show countKey (applyChunks item fails (i + 1) cs _ k) _ = _
    by_cases hf : fails i
    · rw [if_pos hf]; exact ih (i + 1) st h
    · rw [if_neg hf]
      rw [ih (i + 1) _ (by rw [addTL_countKey_pos _ _ _ _ h]; exact h)]
      exact addTL_countKey_pos _ _ _ _ h

theorem applyChunks_countKey_le_one (item : FeedItem) (fails : Nat → Bool)
    (cs : List (List String)) (k : String) :
    ∀ (i : Nat) (st : Store), countKey (st k) (encodeMember item) ≤ 1 →
      countKey (applyChunks item fails i cs st k) (encodeMember item) ≤ 1 := by
  induction cs with
  | nil => intro i st h; exact h
  | cons c cs ih =>
    intro i st h
    show countKey (applyChunks item fails (i + 1) cs _ k) _ ≤ 1
    by_cases hf : fails i
    · rw [if_pos hf]; exact ih (i + 1) st h
    · rw [if_neg hf]
      exact ih (i + 1) _ (addTL_countKey_le_one _ _ _ _ h)

theorem applyChunks_countKey_mem (item : FeedItem) (cs : List (List String)) (uid : String)
    (hu : uid ∈ cs.flatten) :
    ∀ (i : Nat) (st : Store),
      countKey (st ("timeline:" ++ uid)) (encodeMember item) ≤ 1 →
      countKey (applyChunks item (fun _ => false) i cs st ("timeline:" ++ uid))
        (encodeMember item) = 1 := by
  induction cs with
  | nil => cases hu
  | cons c cs ih =>
    intro i st h
    show countKey (applyChunks item _ (i + 1) cs _ _) _ = 1
    rw [if_neg (by simp)]
    have hu2 : uid ∈ c ++ cs.flatten := by rw [List.flatten_cons] at hu; exact hu
    rcases List.mem_append.mp hu2 with hc | hcs
    · have h1 := addTL_countKey_mem item c st uid hc h
      rw [applyChunks_countKey_pos _ _ _ _ _ _ (by rw [h1]; exact Nat.one_ne_zero), h1]
    · exact ih hcs (i + 1) _ (addTL_countKey_le_one _ _ _ _ h)

theorem applyChunks_eq_foldl (item : FeedItem) (fails : Nat → Bool)
    (cs : List (List String)) :
    ∀ (i : Nat) (st : Store),
      applyChunks item fails i cs st
        = (appliedChunks fails i cs).foldl (fun s c => AddToTimelines s c item) st := by
  induction cs with
  | nil => intro i st; rfl
  | cons c cs ih =>
    intro i st
    show applyChunks item fails (i + 1) cs _ = _
    by_cases hf : fails i
    · rw [if_pos hf]
      simp only [appliedChunks, hf, if_true]
      exact ih (i + 1) st
    · rw [if_neg hf]
      simp only [appliedChunks, hf, Bool.false_eq_true, if_false, List.foldl_cons]
      exact ih (i + 1) _

/-! ### Claims about distribution -/

/-- C1: for a follower set of size N returned without error and chunk size
1000, `DistributePost` issues exactly ⌈N/1000⌉ `AddToTimelines` calls (zero
calls and success for N = 0), and when every batch write succeeds every
follower's timeline afterwards holds exactly one entry for the distributed
item's member key. -/
theorem C1_distribute_batches (fs : List String) (fails : Nat → Bool) (st : Store)
    (item : FeedItem) :
    (DistributePost (Except.ok fs) fails st item).2.2.length
        = (fs.length + BatchSize - 1) / BatchSize ∧
    (fs = [] → DistributePost (Except.ok fs) fails st item = (Except.ok (), st, [])) ∧
    (∀ uid ∈ fs,
      countKey (st ("timeline:" ++ uid)) (encodeMember item) ≤ 1 →
      countKey
        ((DistributePost (Except.ok fs) (fun _ => false) st item).2.1 ("timeline:" ++ uid))
        (encodeMember item) = 1) := by
  refine ⟨?_, ?_, ?_⟩
  · by_cases hfs : fs.length = 0
    · simp only [DistributePost, hfs, if_true]
      have h0 : (0 + BatchSize - 1) / BatchSize = 0 := Nat.div_eq_of_lt (by decide)
      simp only [List.length_nil, hfs]
      simpa using h0.symm
    · simp only [DistributePost, hfs, if_false]
      exact chunks_length fs
  · intro h
    subst h
    rfl
  · intro uid hu hle
    have hfs : fs.length ≠ 0 := by
      intro h0
      rw [List.length_eq_zero.mp h0] at hu
      cases hu
    simp only [DistributePost, hfs, if_false]
    exact applyChunks_countKey_mem item (chunks BatchSize fs) uid
      ((chunks_flatten fs).symm ▸ hu) 0 st hle

/-- C1 witness: one follower, empty initial store — after distribution the
follower's timeline holds exactly one entry for the item. -/
theorem C1_distribute_batches_witness :
    ("u1" : String) ∈ ["u1"] ∧
    countKey
      ((DistributePost (Except.ok ["u1"]) (fun _ => false) (fun _ => ([] : ZSet))
          { postID := "p", authorID := "a", type := "post", createdAt := 3 }).2.1
        ("timeline:" ++ "u1"))
      (encodeMember { postID := "p", authorID := "a", type := "post", createdAt := 3 }) = 1 :=
  ⟨by decide,
    (C1_distribute_batches ["u1"] (fun _ => false) (fun _ => ([] : ZSet))
      { postID := "p", authorID := "a", type := "post", createdAt := 3 }).2.2 "u1"
      (by decide) (by decide)⟩

/-- C2: `DistributePost` returns an error iff the follower enumeration
failed; on success every chunk is passed to `AddToTimelines` (all ⌈N/C⌉ of
them, even when some fail), the final keyspace is the fold of the
non-failing batches only (failed batches are skipped, dispatch continues),
and no batch failure is surfaced in the result. -/
theorem C2_error_iff_stream_failure (followersRes : Except String (List String))
    (fails : Nat → Bool) (st : Store) (item : FeedItem) :
    ((∃ e, (DistributePost followersRes fails st item).1 = Except.error e)
        ↔ (∃ e, followersRes = Except.error e)) ∧
    (∀ fs, followersRes = Except.ok fs →
      (DistributePost followersRes fails st item).1 = Except.ok () ∧
      (DistributePost followersRes fails st item).2.2 = chunks BatchSize fs ∧
      (DistributePost followersRes fails st item).2.1
        = (appliedChunks fails 0 (chunks BatchSize fs)).foldl
            (fun s c => AddToTimelines s c item) st) := by
  cases followersRes with
  | error e =>
    refine ⟨⟨fun _ => ⟨e, rfl⟩, fun _ => ⟨e, rfl⟩⟩, ?_⟩
    intro fs h
    cases h
  | ok fs =>
    constructor
    · constructor
      · intro ⟨e, he⟩
        by_cases hfs : fs.length = 0 <;>
          simp only [DistributePost, hfs, if_true, if_false] at he <;> cases he
      · intro ⟨e, he⟩
        cases he
    · intro fs' h
      have hfs' : fs' = fs := by
        injection h with h'
        exact h'.symm
      subst hfs'
      by_cases hfs : fs'.length = 0
      · have hnil : fs' = [] := List.length_eq_zero.mp hfs
        subst hnil
        exact ⟨rfl, rfl, rfl⟩
      · simp only [DistributePost, hfs, if_false]
        exact ⟨trivial, trivial, applyChunks_eq_foldl item fails (chunks BatchSize fs') 0 st⟩

/-- C2 witness: a follower list delivered successfully while every batch
write fails — the result is still success, every chunk was attempted, and
the keyspace equals the fold over the (empty) list of non-failing batches. -/
theorem C2_error_iff_stream_failure_witness :
    (DistributePost (Except.ok ["u1"]) (fun _ => true) (fun _ => ([] : ZSet))
        { postID := "p", authorID := "a", type := "post", createdAt := 3 }).1
      = Except.ok () ∧
    (DistributePost (Except.ok ["u1"]) (fun _ => true) (fun _ => ([] : ZSet))
        { postID := "p", authorID := "a", type := "post", createdAt := 3 }).2.2
      = chunks BatchSize ["u1"] ∧
    (DistributePost (Except.ok ["u1"]) (fun _ => true) (fun _ => ([] : ZSet))
        { postID := "p", authorID := "a", type := "post", createdAt := 3 }).2.1
      = (appliedChunks (fun _ => true) 0 (chunks BatchSize ["u1"])).foldl
          (fun s c => AddToTimelines s c
            { postID := "p", authorID := "a", type := "post", createdAt := 3 })
          (fun _ => ([] : ZSet)) :=
  (C2_error_iff_stream_failure (Except.ok ["u1"]) (fun _ => true) (fun _ => ([] : ZSet))
    { postID := "p", authorID := "a", type := "post", createdAt := 3 }).2 ["u1"] rfl

/-- C9: if the follower stream terminates with an error — after any number
of delivered batches — `DistributePost` performs zero timeline writes: the
keyspace is returned unchanged and no `AddToTimelines` call is issued. -/
theorem C9_stream_failure_zero_writes (batches : List (List String)) (e : String)
    (fails : Nat → Bool) (st : Store) (item : FeedItem) :
    DistributePost (getFollowers batches (some e)) fails st item
      = (Except.error e, st, []) := rfl

/-- C3: distributing the same content reference (same type, author and
content id — timestamps may differ) to the same follower twice leaves
exactly one entry for the composite member key in that follower's timeline,
and its score is the `CreatedAt` of the most recently applied write. -/
theorem C3_idempotent_membership (st : Store) (uids1 uids2 : List String) (uid : String)
    (i1 i2 : FeedItem) (ht : i1.type = i2.type) (ha : i1.authorID = i2.authorID)
    (hp : i1.postID = i2.postID) (h1 : uid ∈ uids1) (h2 : uid ∈ uids2)
    (hwf : countKey (st ("timeline:" ++ uid)) (encodeMember i2) ≤ 1) :
    countKey (AddToTimelines (AddToTimelines st uids1 i1) uids2 i2 ("timeline:" ++ uid))
        (encodeMember i2) = 1 ∧
    zscore (AddToTimelines (AddToTimelines st uids1 i1) uids2 i2 ("timeline:" ++ uid))
        (encodeMember i2) = some i2.createdAt := by
  have hm : encodeMember i1 = encodeMember i2 := by
    unfold encodeMember
    rw [ht, ha, hp]
  constructor
  · apply addTL_countKey_mem i2 uids2 _ uid h2
    rw [← hm]
    exact addTL_countKey_le_one i1 uids1 st _ (hm ▸ hwf)
  · exact addTL_zscore_mem i2 uids2 _ uid h2

/-- C3 witness: the same post written twice to follower u1 with timestamps
5 then 9 — one entry, score 9. -/
theorem C3_idempotent_membership_witness :
    countKey
      (AddToTimelines
        (AddToTimelines (fun _ => ([] : ZSet)) ["u1"]
          { postID := "p", authorID := "a", type := "post", createdAt := 5 })
        ["u1"] { postID := "p", authorID := "a", type := "post", createdAt := 9 }
        ("timeline:" ++ "u1"))
      (encodeMember { postID := "p", authorID := "a", type := "post", createdAt := 9 }) = 1 ∧
    zscore
      (AddToTimelines
        (AddToTimelines (fun _ => ([] : ZSet)) ["u1"]
          { postID := "p", authorID := "a", type := "post", createdAt := 5 })
        ["u1"] { postID := "p", authorID := "a", type := "post", createdAt := 9 }
        ("timeline:" ++ "u1"))
      (encodeMember { postID := "p", authorID := "a", type := "post", createdAt := 9 })
      = some 9 :=
  C3_idempotent_membership (fun _ => ([] : ZSet)) ["u1"] ["u1"] "u1"
    { postID := "p", authorID := "a", type := "post", createdAt := 5 }
    { postID := "p", authorID := "a", type := "post", createdAt := 9 }
    rfl rfl rfl (by decide) (by decide) (by decide)

/-- C8 counterexample: with two stream batches ["u1"] and ["u2"], the
follower enumeration returns the complete follower set as one in-memory
list — `DistributePost` receives and holds the full list, contradicting
"at no point does the coordinator hold the complete follower identity list
at once". -/
theorem C8_counterexample :
    getFollowers [["u1"], ["u2"]] none = Except.ok ["u1", "u2"] ∧
    ["u1", "u2"] = List.flatten [["u1"], ["u2"]] ∧
    (DistributePost (getFollowers [["u1"], ["u2"]] none) (fun _ => false)
        (fun _ => ([] : ZSet))
        { postID := "p", authorID := "a", type := "post", createdAt := 3 }).2.2
      = [["u1", "u2"]] :=
  ⟨rfl, rfl, rfl⟩

/-- C8 amended: the stream source delivers followers in bounded batches,
but `GetFollowers` concatenates every batch into a single complete follower
list before returning; `DistributePost` holds that complete list and
re-chunks it into dispatch batches of 1000. -/
theorem C8_materializes_then_rechunks (batches : List (List String))
    (fails : Nat → Bool) (st : Store) (item : FeedItem) :
    getFollowers batches none = Except.ok batches.flatten ∧
    (DistributePost (getFollowers batches none) fails st item).2.2
      = chunks BatchSize batches.flatten := by
  refine ⟨rfl, ?_⟩
  show (DistributePost (Except.ok batches.flatten) fails st item).2.2 = _
  by_cases h : batches.flatten.length = 0
  · simp only [DistributePost, h, if_true]
    rw [List.length_eq_zero.mp h]
    rfl
  · simp only [DistributePost, h, if_false]

/-! ### Claims about the read path -/

/-- C10: a stored member that fails to decode (its colon-split has neither
exactly 2 nor exactly 3 parts) is silently omitted from the result of the
`GetTimeline` loop, while every well-formed member of the fetched range
that passes the type filter is still returned; the loop itself has no error
path. -/
theorem C10_malformed_members_skipped (l1 l2 : List (String × Int)) (m : String) (s : Int)
    (types : List ContentType) (hbad : parseMember m = none) :
    processResults (l1 ++ (m, s) :: l2) types = processResults (l1 ++ l2) types ∧
    (∀ (results : List (String × Int)) (z : String × Int) (t a p : String),
      z ∈ results → parseMember z.1 = some (t, a, p) → (types = [] ∨ t ∈ types) →
      ({ postID := p, authorID := a, type := t, createdAt := z.2 } : FeedItem)
        ∈ processResults results types) := by
  constructor
  · simp only [processResults, List.filterMap_append, List.filterMap_cons]
    have hnone : entryToItem types (m, s) = none := by simp [entryToItem, hbad]
    rw [hnone]
  · intro results z t a p hz hparse htype
    apply List.mem_filterMap.mpr
    refine ⟨z, hz, ?_⟩
    simp only [entryToItem, hparse]
    rcases htype with h | h
    · simp [h]
    · simp [h]

/-- C10 witness: the undecodable member "abc" between well-formed entries
is dropped; the well-formed entry "video:a:p2" is returned. -/
theorem C10_malformed_members_skipped_witness :
    processResults ([("video:a:p2", 5)] ++ ("abc", 7) :: []) []
      = processResults ([("video:a:p2", 5)] ++ []) [] ∧
    ({ postID := "p2", authorID := "a", type := "video", createdAt := 5 } : FeedItem)
      ∈ processResults [("video:a:p2", 5)] [] :=
  ⟨(C10_malformed_members_skipped [("video:a:p2", 5)] [] "abc" 7 [] (by decide)).1,
    (C10_malformed_members_skipped [("video:a:p2", 5)] [] "abc" 7 [] (by decide)).2
      [("video:a:p2", 5)] ("video:a:p2", 5) "video" "a" "p2"
      (by decide) (by decide) (Or.inl rfl)⟩

/-! ### Member encoding lemmas -/

theorem splitCh_no_sep (sep : Char) (l : List Char) (h : sep ∉ l) :
    splitCh sep l = [l] := by
  induction l with
  | nil => rfl
  | cons x xs ih =>
    have hx : ¬ x = sep := fun hc => h (hc ▸ List.mem_cons_self x xs)
    have hxs : sep ∉ xs := fun hc => h (List.mem_cons_of_mem x hc)
    simp only [splitCh, hx, if_false, ih hxs]

theorem splitCh_sep_append (sep : Char) (a r : List Char) (h : sep ∉ a) :
    splitCh sep (a ++ sep :: r) = a :: splitCh sep r := by
  induction a with
  | nil => simp [splitCh]
  | cons x xs ih =>
    have hx : ¬ x = sep := fun hc => h (hc ▸ List.mem_cons_self x xs)
    have hxs : sep ∉ xs := fun hc => h (List.mem_cons_of_mem x hc)
    simp only [List.cons_append, splitCh, hx, if_false, List.append_eq, ih hxs]

theorem goSplitColon_three (t a p : String)
    (ht : ':' ∉ t.data) (ha : ':' ∉ a.data) (hp : ':' ∉ p.data) :
    goSplitColon (t ++ ":" ++ a ++ ":" ++ p) = [t, a, p] := by
  have hdata : (t ++ ":" ++ a ++ ":" ++ p).data
      = t.data ++ ':' :: (a.data ++ ':' :: p.data) := by
    simp [String.data_append]
  unfold goSplitColon
  rw [hdata, splitCh_sep_append ':' t.data _ ht, splitCh_sep_append ':' a.data _ ha,
    splitCh_no_sep ':' p.data hp]
  rfl

theorem goSplitColon_two (t p : String) (ht : ':' ∉ t.data) (hp : ':' ∉ p.data) :
    goSplitColon (t ++ ":" ++ p) = [t, p] := by
  have hdata : (t ++ ":" ++ p).data = t.data ++ ':' :: p.data := by
    simp [String.data_append]
  unfold goSplitColon
  rw [hdata, splitCh_sep_append ':' t.data _ ht, splitCh_no_sep ':' p.data hp]
  rfl

/-- C5: a stored member is the string `ContentType:AuthorID:ContentID` with
score `CreatedAt` (unix seconds); for colon-free fields the read path
decodes that member back to the same triple, and a legacy 2-part member
`ContentType:ContentID` still decodes with an empty AuthorID. -/
theorem C5_member_roundtrip (item : FeedItem) (st : Store) (uids : List String)
    (uid : String) (hu : uid ∈ uids) (ht : ':' ∉ item.type.data)
    (ha : ':' ∉ item.authorID.data) (hp : ':' ∉ item.postID.data) :
    zscore (AddToTimelines st uids item ("timeline:" ++ uid))
        (item.type ++ ":" ++ item.authorID ++ ":" ++ item.postID) = some item.createdAt ∧
    parseMember (encodeMember item) = some (item.type, item.authorID, item.postID) ∧
    (∀ t p : String, ':' ∉ t.data → ':' ∉ p.data →
      parseMember (t ++ ":" ++ p) = some (t, "", p)) := by
  refine ⟨addTL_zscore_mem item uids st uid hu, ?_, ?_⟩
  · show parseMember (item.type ++ ":" ++ item.authorID ++ ":" ++ item.postID) = _
    unfold parseMember
    rw [goSplitColon_three item.type item.authorID item.postID ht ha hp]
  · intro t p ht' hp'
    unfold parseMember
    rw [goSplitColon_two t p ht' hp']

/-- C5 witness: the item (video, a, p1, 11) distributed to u1 — the stored
member "video:a:p1" carries score 11, decodes back to the same triple, and
the legacy member "video:p1" decodes with empty author. -/
theorem C5_member_roundtrip_witness :
    zscore
      (AddToTimelines (fun _ => ([] : ZSet)) ["u1"]
        { postID := "p1", authorID := "a", type := "video", createdAt := 11 }
        ("timeline:" ++ "u1"))
      ("video" ++ ":" ++ "a" ++ ":" ++ "p1") = some 11 ∧
    parseMember
      (encodeMember { postID := "p1", authorID := "a", type := "video", createdAt := 11 })
      = some ("video", "a", "p1") ∧
    parseMember ("video" ++ ":" ++ "p1") = some ("video", "", "p1") := by
  have h := C5_member_roundtrip
    { postID := "p1", authorID := "a", type := "video", createdAt := 11 }
    (fun _ => ([] : ZSet)) ["u1"] "u1" (by decide) (by decide) (by decide) (by decide)
  exact ⟨h.1, h.2.1, h.2.2 "video" "p1" (by decide) (by decide)⟩

/-! ### Range-read lemmas -/

theorem zrevrange_nat (zs : ZSet) (off lim : Nat) (hlim : 0 < lim) :
    zrevrange zs (off : Int) ((off : Int) + (lim : Int) - 1)
      = ((sortRev zs).drop off).take lim := by
  simp only [zrevrange]
  rw [if_neg (by omega : ¬ ((off : Int) < 0)),
    if_neg (by omega : ¬ ((off : Int) + (lim : Int) - 1 < 0)),
    max_eq_left (by omega : (0 : Int) ≤ (off : Int))]
  by_cases hge : (off : Int) ≥ ((sortRev zs).length : Int)
  · rw [if_pos (Or.inr hge)]
    rw [List.drop_eq_nil_of_le (by exact_mod_cast hge), List.take_nil]
  · rw [if_neg (by omega)]
    simp only [Int.toNat_natCast]
    apply List.take_eq_take.mpr
    rw [List.length_drop]
    omega

theorem zrevrange_length_le (zs : ZSet) (start stop : Int) (h : start ≤ stop) :
    (zrevrange zs start stop).length ≤ (stop - start + 1).toNat := by
  simp only [zrevrange]
  by_cases hs : start < 0 <;> by_cases he : stop < 0 <;>
    simp only [hs, he, if_true, if_false] <;>
    split <;>
    simp only [List.length_nil, List.length_take, List.length_drop, Nat.zero_le] <;>
    omega

theorem processResults_type_mem (results : List (String × Int)) (types : List ContentType)
    (hne : types ≠ []) :
    ∀ it ∈ processResults results types, it.type ∈ types := by
  intro it hit
  rcases List.mem_filterMap.mp hit with ⟨z, hz, hf⟩
  unfold entryToItem at hf
  split at hf
  · cases hf
  · rename_i t a p heq
    split at hf
    · cases hf
    · rename_i hc
      injection hf with hf'
      rw [← hf']
      rcases not_and_or.mp hc with h | h
      · exact absurd hne (by simpa using h)
      · simpa using h

theorem processResults_all_parsed (results : List (String × Int))
    (h : ∀ z ∈ results, (parseMember z.1).isSome) :
    (processResults results []).length = results.length := by
  induction results with
  | nil => rfl
  | cons z zs ih =>
    obtain ⟨v, hv⟩ := Option.isSome_iff_exists.mp (h z (List.mem_cons_self z zs))
    obtain ⟨t, a, p⟩ := v
    simp only [processResults, List.filterMap_cons, entryToItem, hv]
    simp only [ne_eq, not_true_eq_false, false_and, if_false, List.length_cons]
    have ih' := ih (fun w hw => h w (List.mem_cons_of_mem z hw))
    simp only [processResults] at ih'
    rw [ih']

theorem flatMap_take_drop {α : Type} (L m : Nat) (l : List α) :
    (List.range m).flatMap (fun j => (l.drop (j * L)).take L) = l.take (m * L) := by
  induction m with
  | zero => simp
  | succ m ih =>
    rw [List.range_succ, List.flatMap_append, ih]
    simp only [List.flatMap_cons, List.flatMap_nil, List.append_nil]
    rw [← List.take_add, Nat.succ_mul]

theorem filterMap_flatMap_eq {α β γ : Type} (l : List α) (g : α → List β)
    (f : β → Option γ) :
    (l.flatMap g).filterMap f = l.flatMap (fun x => (g x).filterMap f) := by
  induction l with
  | nil => rfl
  | cons x xs ih => simp only [List.flatMap_cons, List.filterMap_append, ih]

/-- C4 counterexample: with Offset = 0 and Limit = 0 the source computes
`ZREVRANGE key 0 -1`, whose stop index −1 wraps to "last element" — the
whole timeline is returned instead of the empty inclusive range [0, −1]. -/
theorem C4_counterexample :
    GetTimeline (fun k => if k = "timeline:u" then [("post:a:p1", 10)] else [])
        { UserID := "u", Limit := 0, Offset := 0, Types := [] }
      = [{ postID := "p1", authorID := "a", type := "post", createdAt := 10 }] ∧
    GetTimeline (fun k => if k = "timeline:u" then [("post:a:p1", 10)] else [])
        { UserID := "u", Limit := 0, Offset := 0, Types := [] } ≠ [] := by decide

/-- C4 amended: for nonnegative Offset and positive Limit, `GetTimeline`
with no type filter returns the inclusive range [Offset, Offset+Limit−1] of
the full descending-score ordering (a permutation of the timeline, sorted
by descending score), and concatenating pages of size L ≥ 1 reproduces the
decoded full ordering with no gaps and no duplicates (for a fully
decodable timeline the decoded ordering has exactly one entry per stored
member). -/
theorem C4_pagination (st : Store) (uid : String) (L : Nat) (hL : 0 < L)
    (hwf : ∀ z ∈ st ("timeline:" ++ uid), (parseMember z.1).isSome) :
    (∀ off lim : Nat, 0 < lim →
      GetTimeline st { UserID := uid, Limit := (lim : Int), Offset := (off : Int), Types := [] }
        = processResults (((sortRev (st ("timeline:" ++ uid))).drop off).take lim) []) ∧
    (sortRev (st ("timeline:" ++ uid))).Pairwise (fun a b => b.2 ≤ a.2) ∧
    (sortRev (st ("timeline:" ++ uid))).Perm (st ("timeline:" ++ uid)) ∧
    ((List.range (((st ("timeline:" ++ uid)).length + L - 1) / L)).flatMap
        (fun j => GetTimeline st
          { UserID := uid, Limit := (L : Int), Offset := ((j * L : Nat) : Int), Types := [] })
      = processResults (sortRev (st ("timeline:" ++ uid))) []) ∧
    (processResults (sortRev (st ("timeline:" ++ uid))) []).length
      = (st ("timeline:" ++ uid)).length := by
  set zs := st ("timeline:" ++ uid) with hzs
  have hpage : ∀ off lim : Nat, 0 < lim →
      GetTimeline st { UserID := uid, Limit := (lim : Int), Offset := (off : Int), Types := [] }
        = processResults (((sortRev zs).drop off).take lim) [] := by
    intro off lim hlim
    show processResults (zrevrange zs (off : Int) ((off : Int) + (lim : Int) - 1)) [] = _
    rw [zrevrange_nat zs off lim hlim]
  refine ⟨hpage, ?_, ?_, ?_, ?_⟩
  · exact List.Pairwise.imp
      (fun hab => by
        rcases hab with h | ⟨h, _⟩
        · exact le_of_lt h
        · exact le_of_eq h.symm)
      (List.sorted_insertionSort revRel zs)
  · exact List.perm_insertionSort revRel zs
  · have hstep : ∀ j : Nat,
        GetTimeline st
          { UserID := uid, Limit := (L : Int), Offset := ((j * L : Nat) : Int), Types := [] }
          = processResults (((sortRev zs).drop (j * L)).take L) [] :=
      fun j => hpage (j * L) L hL
    simp only [hstep, processResults]
    rw [← filterMap_flatMap_eq, flatMap_take_drop]
    rw [List.take_of_length_le (by
      rw [sortRev, (List.perm_insertionSort revRel zs).length_eq, Nat.mul_comm]
      have hdm := Nat.div_add_mod (zs.length + L - 1) L
      have hmod := Nat.mod_lt (zs.length + L - 1) hL
      omega)]
  · rw [processResults_all_parsed _ (fun z hz => hwf z
      ((List.mem_insertionSort revRel).mp (by rw [sortRev] at hz; exact hz)))]
    exact (List.perm_insertionSort revRel zs).length_eq

/-- C4 witness: a two-entry timeline paged with L = 1 — the page equation,
descending order, permutation, lossless pagination and lossless decoding
all hold. -/
theorem C4_pagination_witness :
    ((0 : Nat) < 1 ∧ ∀ z ∈ (fun k => if k = "timeline:u"
        then [("post:a:p1", (10 : Int)), ("video:a:p2", 5)] else []) ("timeline:" ++ "u"),
      (parseMember z.1).isSome) ∧
    ((∀ off lim : Nat, 0 < lim →
      GetTimeline (fun k => if k = "timeline:u"
          then [("post:a:p1", (10 : Int)), ("video:a:p2", 5)] else [])
        { UserID := "u", Limit := (lim : Int), Offset := (off : Int), Types := [] }
        = processResults (((sortRev ((fun k => if k = "timeline:u"
            then [("post:a:p1", (10 : Int)), ("video:a:p2", 5)] else [])
            ("timeline:" ++ "u"))).drop off).take lim) []) ∧
    (sortRev ((fun k => if k = "timeline:u"
        then [("post:a:p1", (10 : Int)), ("video:a:p2", 5)] else [])
        ("timeline:" ++ "u"))).Pairwise (fun a b => b.2 ≤ a.2) ∧
    (sortRev ((fun k => if k = "timeline:u"
        then [("post:a:p1", (10 : Int)), ("video:a:p2", 5)] else [])
        ("timeline:" ++ "u"))).Perm ((fun k => if k = "timeline:u"
        then [("post:a:p1", (10 : Int)), ("video:a:p2", 5)] else [])
        ("timeline:" ++ "u")) ∧
    ((List.range ((((fun k => if k = "timeline:u"
          then [("post:a:p1", (10 : Int)), ("video:a:p2", 5)] else [])
          ("timeline:" ++ "u")).length + 1 - 1) / 1)).flatMap
        (fun j => GetTimeline (fun k => if k = "timeline:u"
            then [("post:a:p1", (10 : Int)), ("video:a:p2", 5)] else [])
          { UserID := "u", Limit := (1 : Int), Offset := ((j * 1 : Nat) : Int), Types := [] })
      = processResults (sortRev ((fun k => if k = "timeline:u"
          then [("post:a:p1", (10 : Int)), ("video:a:p2", 5)] else [])
          ("timeline:" ++ "u"))) []) ∧
    (processResults (sortRev ((fun k => if k = "timeline:u"
        then [("post:a:p1", (10 : Int)), ("video:a:p2", 5)] else [])
        ("timeline:" ++ "u"))) []).length
      = ((fun k => if k = "timeline:u"
          then [("post:a:p1", (10 : Int)), ("video:a:p2", 5)] else [])
          ("timeline:" ++ "u")).length) :=
  ⟨⟨by decide, by decide⟩,
    C4_pagination (fun k => if k = "timeline:u"
      then [("post:a:p1", (10 : Int)), ("video:a:p2", 5)] else []) "u" 1
      (by decide) (by decide)⟩

/-- C6 counterexample: with Limit = 0 and Offset = 0 the fetched range is
`ZREVRANGE key 0 -1` — the whole timeline — so the filtered result can hold
more than Limit items (here 1 > 0). -/
theorem C6_counterexample :
    GetTimeline (fun k => if k = "timeline:u" then [("post:a:p1", 10)] else [])
        { UserID := "u", Limit := 0, Offset := 0, Types := ["post"] }
      = [{ postID := "p1", authorID := "a", type := "post", createdAt := 10 }] ∧
    ¬ ((GetTimeline (fun k => if k = "timeline:u" then [("post:a:p1", 10)] else [])
        { UserID := "u", Limit := 0, Offset := 0, Types := ["post"] }).length
      ≤ (0 : Int).toNat) := by decide

/-- C6 amended: for requests with a non-empty type set and Limit ≥ 1, every
returned item's type is in the set and the result holds at most Limit
items; the filter runs only after the range fetch, so a page can hold fewer
than Limit items even though matching items exist further down the
timeline (concrete instance: page of size 1 is empty while the video item
sits at rank 2). -/
theorem C6_type_filter (st : Store) (req : FeedRequest) (hne : req.Types ≠ [])
    (hlim : 1 ≤ req.Limit) :
    (∀ it ∈ GetTimeline st req, it.type ∈ req.Types) ∧
    (GetTimeline st req).length ≤ req.Limit.toNat ∧
    GetTimeline (fun k => if k = "timeline:u"
        then [("post:a:p1", (10 : Int)), ("video:a:p2", 5)] else [])
      { UserID := "u", Limit := 1, Offset := 0, Types := ["video"] } = [] ∧
    GetTimeline (fun k => if k = "timeline:u"
        then [("post:a:p1", (10 : Int)), ("video:a:p2", 5)] else [])
      { UserID := "u", Limit := 2, Offset := 0, Types := ["video"] }
      = [{ postID := "p2", authorID := "a", type := "video", createdAt := 5 }] := by
  refine ⟨?_, ?_, by decide, by decide⟩
  · exact processResults_type_mem _ req.Types hne
  · have h1 : (GetTimeline st req).length
        ≤ (zrevrange (st ("timeline:" ++ req.UserID)) req.Offset
            (req.Offset + req.Limit - 1)).length :=
      List.length_filterMap_le _ _
    have h2 := zrevrange_length_le (st ("timeline:" ++ req.UserID)) req.Offset
      (req.Offset + req.Limit - 1) (by omega)
    omega

/-- C6 witness: the filter request (Types = [video], Limit = 2) on the
two-entry timeline — typed membership and the length bound hold. -/
theorem C6_type_filter_witness :
    (∀ it ∈ GetTimeline (fun k => if k = "timeline:u"
          then [("post:a:p1", (10 : Int)), ("video:a:p2", 5)] else [])
        { UserID := "u", Limit := 2, Offset := 0, Types := ["video"] },
      it.type ∈ ["video"]) ∧
    (GetTimeline (fun k => if k = "timeline:u"
          then [("post:a:p1", (10 : Int)), ("video:a:p2", 5)] else [])
        { UserID := "u", Limit := 2, Offset := 0, Types := ["video"] }).length
      ≤ (2 : Int).toNat :=
  ⟨(C6_type_filter (fun k => if k = "timeline:u"
        then [("post:a:p1", (10 : Int)), ("video:a:p2", 5)] else [])
      { UserID := "u", Limit := 2, Offset := 0, Types := ["video"] }
      (by decide) (by decide)).1,
    (C6_type_filter (fun k => if k = "timeline:u"
        then [("post:a:p1", (10 : Int)), ("video:a:p2", 5)] else [])
      { UserID := "u", Limit := 2, Offset := 0, Types := ["video"] }
      (by decide) (by decide)).2.1⟩

/-- C7 counterexample: the handler never reads the query's types filter —
for a timeline holding only a post item, a request filtering for video
still returns the post item, while a forwarded filter would have returned
the empty list. -/
theorem C7_counterexample :
    serverGetTimeline (fun k => if k = "timeline:u" then [("post:a:p1", 10)] else [])
        "u" 20 0 ["video"]
      = Except.ok [{ postID := "p1", authorID := "a", type := "post", createdAt := 10 }] ∧
    GetTimeline (fun k => if k = "timeline:u" then [("post:a:p1", 10)] else [])
        { UserID := "u", Limit := 20, Offset := 0, Types := ["video"] } = [] := by
  constructor
  · show Except.ok (GetTimeline (fun k => if k = "timeline:u" then [("post:a:p1", 10)] else [])
        { UserID := "u", Limit := 20, Offset := 0, Types := [] }) = _
    exact congrArg Except.ok (by decide)
  · decide

/-- C7 amended: for a non-empty user id the reader defaults Limit ≤ 0 to
20, clamps negative Offset to 0, forwards user id, limit and offset to the
store's `GetTimeline` with an **empty** type set (the query's types filter
is ignored), and returns the store's list unchanged. -/
theorem C7_reader_validation (st : Store) (userId : String) (limit offset : Int)
    (types : List ContentType) (h : userId ≠ "") :
    serverGetTimeline st userId limit offset types
      = Except.ok (GetTimeline st
          { UserID := userId, Limit := if limit ≤ 0 then 20 else limit,
            Offset := if offset < 0 then 0 else offset, Types := [] }) ∧
    (limit ≤ 0 → serverGetTimeline st userId limit offset types
      = serverGetTimeline st userId 20 offset types) ∧
    (offset < 0 → serverGetTimeline st userId limit offset types
      = serverGetTimeline st userId limit 0 types) ∧
    serverGetTimeline st userId limit offset types
      = serverGetTimeline st userId limit offset [] := by
  refine ⟨?_, ?_, ?_, rfl⟩
  · simp only [serverGetTimeline, if_neg h]
  · intro hl
    simp only [serverGetTimeline, if_neg h, if_pos hl,
      if_neg (by norm_num : ¬ (20 : Int) ≤ 0)]
  · intro ho
    simp only [serverGetTimeline, if_neg h, if_pos ho,
      if_neg (by norm_num : ¬ (0 : Int) < 0)]

/-- C7 witness: user "u", limit −5 and offset −3 — the limit defaults to
20, the offset clamps to 0, the forwarded request carries no type filter,
and the ignored types argument does not affect the result. -/
theorem C7_reader_validation_witness :
    (serverGetTimeline (fun _ => ([] : ZSet)) "u" (-5) (-3) ["video"]
      = Except.ok (GetTimeline (fun _ => ([] : ZSet))
          { UserID := "u", Limit := if (-5 : Int) ≤ 0 then 20 else (-5),
            Offset := if (-3 : Int) < 0 then 0 else (-3), Types := [] })) ∧
    serverGetTimeline (fun _ => ([] : ZSet)) "u" (-5) (-3) ["video"]
      = serverGetTimeline (fun _ => ([] : ZSet)) "u" 20 (-3) ["video"] ∧
    serverGetTimeline (fun _ => ([] : ZSet)) "u" (-5) (-3) ["video"]
      = serverGetTimeline (fun _ => ([] : ZSet)) "u" (-5) 0 ["video"] ∧
    serverGetTimeline (fun _ => ([] : ZSet)) "u" (-5) (-3) ["video"]
      = serverGetTimeline (fun _ => ([] : ZSet)) "u" (-5) (-3) [] :=
  have hth := C7_reader_validation (fun _ => ([] : ZSet)) "u" (-5) (-3) ["video"] (by decide)
  ⟨hth.1, hth.2.1 (by norm_num), hth.2.2.1 (by norm_num), hth.2.2.2⟩
